import Mathlib

/-!
Verification of the pyAutomate recurring-job scheduler.

This file is a shallow embedding, in Lean 4, of the scheduler engine found in
`scheduler.py` (the combined compression+conversion variant, which the design
document designates as the canonical target) together with the backend variant
`backend/job_scheduler/scheduler.py` and the handler module
`backend/services/file_tasks.py`.  Python dictionaries are modelled as
insertion-ordered association lists, the JSON task file as an explicit
`TaskFile` value, MongoDB's append-only log collection as a Lean list of
`LogEntry`, the filesystem as a finite map from directory paths to the file
names they contain, and wall-clock time (`int(time.time())`) as an explicit
natural-number parameter.  APScheduler's job table is an association list from
job id to the registered job; `add_job(..., replace_existing=True)` replaces
the entry with the same id in place, and `remove_job` fails (raises
`JobLookupError`, modelled as `Except.error`) when no job with the given id
exists, exactly as documented by the library.
-/

set_option linter.unusedVariables false

/-- A Python/JSON scalar value as it occurs in task dictionaries: `None`,
a string, or an integer. -/
inductive PyVal where
  | pnone : PyVal
  | pstr (s : String) : PyVal
  | pint (n : Int) : PyVal
deriving DecidableEq, Repr

/-- One document of the MongoDB `logs` collection, as built by
`log_to_mongodb(task_name, directory, output_path, status, level)`.
The timestamp field is omitted from the model (it never influences control
flow). -/
structure LogEntry where
  task_name : String
  directory : Option String
  output : Option String
  status : String
  level : String
deriving DecidableEq, Repr

/-- A persisted task dictionary.  Each field is `none` when the JSON object
lacks the key entirely, and `some v` when the key is present with value `v`
(`v` may itself be the Python `None`, i.e. `PyVal.pnone`); this distinction
matters because `load_and_schedule_tasks` tests key presence with
`k in details`. -/
structure TaskRec where
  interval : Option PyVal
  unit : Option PyVal
  directory : Option PyVal
  task_type : Option PyVal
  input_format : Option PyVal
  output_format : Option PyVal
  compression_format : Option PyVal
deriving DecidableEq, Repr

/-- The four time units accepted by the `if unit == "seconds" ... elif` chain. -/
inductive TimeUnit where
  | seconds | minutes | hours | days
deriving DecidableEq, Repr

/-- An `IntervalTrigger(seconds|minutes|hours|days = interval)`. -/
structure Trigger where
  unit : TimeUnit
  interval : Int
deriving DecidableEq, Repr

/-- The captured argument vector of a registered job: either
`[task_name, directory, input_format, output_format]` bound to
`file_conversion_task`, or `[task_name, directory, compression_format]`
bound to `file_compression_task`. -/
inductive JobArgs where
  | conversion (task_name : String) (directory : PyVal)
      (input_format : PyVal) (output_format : PyVal) : JobArgs
  | compression (task_name : String) (directory : PyVal)
      (compression_format : PyVal) : JobArgs
deriving DecidableEq, Repr

/-- A live trigger in the APScheduler job table. -/
structure Job where
  trigger : Trigger
  args : JobArgs
deriving DecidableEq, Repr

/-! ### Python dictionaries as insertion-ordered association lists -/

/-- Model of dictionary access: `getVal k d` models `d[k]` / `d.get(k)`: the value stored under key `k`. -/
def getVal {α : Type} (k : String) : List (String × α) → Option α
  | [] => none
  | (k', v) :: rest => if k' = k then some v else getVal k rest

/-- Model of dictionary assignment: `dictSet d k v` models `d[k] = v` on a Python dict: if the key is present
its value is replaced in place (insertion order kept), otherwise the pair is
appended at the end. -/
def dictSet {α : Type} : List (String × α) → String → α → List (String × α)
  | [], k, v => [(k, v)]
  | (k', v') :: rest, k, v =>
    if k' = k then (k, v) :: rest else (k', v') :: dictSet rest k v

/-- Model of deletion: `delKey d k` models `del d[k]`. -/
def delKey {α : Type} (d : List (String × α)) (k : String) :
    List (String × α) :=
  d.filter (fun p => ¬ p.1 = k)

/-! ### Task Store: `load_tasks` / `save_tasks` over the JSON task file

`scheduler.py` and `backend/job_scheduler/scheduler.py` contain the same
`load_tasks`/`save_tasks` pair (only the file path differs). -/

/-- A JSON value, as produced by `json.load`. -/
inductive Json where
  | jnull : Json
  | jbool (b : Bool) : Json
  | jnum (n : Int) : Json
  | jstr (s : String) : Json
  | jarr (elems : List Json) : Json
  | jobj (members : List (String × Json)) : Json

/-- The state of the backing task file: absent, present but not valid JSON,
or present with a parsed JSON value. -/
inductive TaskFile where
  | missing : TaskFile
  | malformed (raw : String) : TaskFile
  | parsed (j : Json) : TaskFile

/-- The two exceptions that `open` + `json.load` can produce in the model. -/
inductive ReadErr where
  | fileNotFound : ReadErr
  | jsonDecodeError : ReadErr
deriving DecidableEq, Repr

/-- Reading the task file: `open(TASK_FILE, "r")` followed by `json.load(f)`. -/
def readTaskFile : TaskFile → Except ReadErr Json
  | .missing => .error .fileNotFound
  | .malformed _ => .error .jsonDecodeError
  | .parsed j => .ok j

/-- A parsed JSON object is materialised into a Python dict by inserting its
members left to right: a duplicated key keeps the position of its first
occurrence and the value of its last one. -/
def jsonObjToDict (ms : List (String × Json)) : List (String × Json) :=
  ms.foldl (fun d p => dictSet d p.1 p.2) []

/-- Embedding of `load_tasks` (`scheduler.py` lines 47-54): returns the parsed dict,
`{}` when the parsed value is not a dict (the `isinstance` guard), and `{}`
when `FileNotFoundError` or `json.JSONDecodeError` was raised. -/
def load_tasks (f : TaskFile) : List (String × Json) :=
  match readTaskFile f with
  | .ok (Json.jobj ms) => jsonObjToDict ms
  | .ok _ => []
  | .error .fileNotFound => []
  | .error .jsonDecodeError => []

/-- Variant of `load_tasks` with the exception flow left visible: the body may raise, and
the `except (FileNotFoundError, json.JSONDecodeError)` clause converts exactly
those two exceptions into a normal `{}` return. -/
def load_tasks_run (f : TaskFile) : Except ReadErr (List (String × Json)) :=
  match readTaskFile f with
  | .ok (Json.jobj ms) => .ok (jsonObjToDict ms)
  | .ok _ => .ok []
  | .error .fileNotFound => .ok []
  | .error .jsonDecodeError => .ok []

/-- Embedding of `save_tasks` (`scheduler.py` lines 56-59): rewrites the whole file with
the JSON rendering of the table (`json.dump(tasks, f, indent=4)`). -/
def save_tasks (tasks : List (String × Json)) : TaskFile :=
  .parsed (Json.jobj tasks)

/-! ### Filesystem model and task handlers

The filesystem is a finite map from existing directory paths to the list of
file names the directory contains; a path absent from the map fails the
`os.path.exists(directory) and os.path.isdir(directory)` guard.  Both handlers
only ever create files at `os.path.join(directory, fname)` for the directory
they were invoked on, so file creation is modelled as adding `fname` to that
directory's list (`open(path, "w")`, `zipfile.ZipFile(path, "w")` and
`tarfile.open(path, "w")` all truncate an existing file, so a name collision
leaves the list unchanged). -/

def FS : Type := List (String × List String)

/-- Create (or truncate) file `f` inside directory `d`: the entry for `d`
gains `f` unless already present; other directories are untouched. -/
def addFileAt : FS → String → String → FS
  | [], _, _ => []
  | (k, files) :: rest, d, f =>
    if k = d then
      (k, if f ∈ files then files else files ++ [f]) :: addFileAt rest d f
    else (k, files) :: addFileAt rest d f

/-- Model of `os.path.basename`: the part of the path after the last slash. -/
def basename (s : String) : String :=
  ⟨(s.data.reverse.takeWhile (fun c => ¬ c = '/')).reverse⟩

/-- Model of `os.path.join(directory, fname)` for a directory without trailing slash. -/
def joinPath (d f : String) : String := d ++ "/" ++ f

/-- Python's `str.endswith`. -/
def endswith (s suffixStr : String) : Bool :=
  List.isSuffixOf suffixStr.data s.data

/-- Model of `os.path.splitext(f)[0]` for a plain file name: the name with
its last extension removed, where leading dots do not start an extension
(`os.path.splitext(".txt")` keeps `".txt"` as the stem). -/
def splitextStem (f : String) : String :=
  let lead := f.data.takeWhile (fun c => c = '.')
  let rest := f.data.drop lead.length
  if rest.contains '.' then
    ⟨lead ++ ((rest.reverse.dropWhile (fun c => ¬ c = '.')).drop 1).reverse⟩
  else f

/-- The `(input_format, output_format)` pairs handled by the `if/elif` chain
of `convert_file`; any other pair raises `ValueError("Unsupported conversion
format")`, which the function's own `except` clause catches. -/
def convFormats : List (String × String) :=
  [("txt", "csv"), ("txt", "pdf"), ("csv", "xlsx"), ("docx", "pdf")]

/-- Embedding of `convert_file` (`scheduler.py` lines 61-95).  The input and output paths
are `os.path.join(directory, ·)` of the file names chosen by the caller.
On a supported format pair the output file is written and an INFO "Converted"
record is appended; on an unsupported pair the raised `ValueError` is caught
by the function's own `except Exception` clause, which appends exactly one
ERROR record and returns normally. -/
def convert_file (fs : FS) (logs : List LogEntry)
    (task_name d in_name out_name input_format output_format : String) :
    FS × List LogEntry :=
  if (input_format, output_format) ∈ convFormats then
    (addFileAt fs d (joinPath d out_name),
     logs ++ [⟨task_name, some (joinPath d in_name), some (joinPath d out_name),
               "Converted", "INFO"⟩])
  else
    (fs, logs ++ [⟨task_name, some (joinPath d in_name),
                   some (joinPath d out_name),
                   "Error: Unsupported conversion format", "ERROR"⟩])

/-- The loop of `file_conversion_task` over `os.listdir(directory)`:
each file whose name ends in `"." + input_format` is converted (appending one
record per file) and counted. -/
def convLoop (fs : FS) (logs : List LogEntry)
    (task_name directory input_format output_format : String) :
    List String → FS × List LogEntry × Nat
  | [] => (fs, logs, 0)
  | fname :: rest =>
    if endswith fname ("." ++ input_format) then
      let out_name := splitextStem fname ++ "." ++ output_format
      let r := convert_file fs logs task_name directory fname out_name
        input_format output_format
      let r2 := convLoop r.1 r.2 task_name directory input_format
        output_format rest
      (r2.1, r2.2.1, r2.2.2 + 1)
    else convLoop fs logs task_name directory input_format output_format rest

/-- Embedding of `file_conversion_task` (`scheduler.py` lines 117-134): the conversion
handler bound to the trigger.  A missing directory appends one ERROR record;
otherwise every matching file is converted via `convert_file`, and when no
file matched a single informational record is appended. -/
def file_conversion_task (fs : FS) (logs : List LogEntry)
    (task_name directory input_format output_format : String) :
    FS × List LogEntry :=
  match getVal directory fs with
  | none =>
    (fs, logs ++ [⟨task_name, some directory, none, "Directory not found",
                   "ERROR"⟩])
  | some files =>
    let r := convLoop fs logs task_name directory input_format output_format
      files
    if r.2.2 = 0 then
      (r.1, r.2.1 ++ [⟨task_name, some directory, none,
        "No files with ." ++ input_format ++ " format found", "INFO"⟩])
    else (r.1, r.2.1)

/-- The body of the `try` block of `compress_files`: writing the archive.
`ioFault = some e` represents any exception raised by the zip/tar library
calls (I/O failure etc.); an unsupported format raises
`ValueError("Unsupported compression format")` before any file is created. -/
def compressBody (ioFault : Option String) (fs : FS) (d out : String)
    (compression_format : String) : Except String FS :=
  if compression_format = "zip" ∨ compression_format = "tar" then
    match ioFault with
    | some e => .error e
    | none => .ok (addFileAt fs d out)
  else .error "Unsupported compression format"

/-- Embedding of `compress_files` (`scheduler.py` lines 97-115): runs the `try` body and
catches any exception it raises (`except Exception`), appending exactly one
record either way and returning normally. -/
def compress_files (ioFault : Option String) (fs : FS) (logs : List LogEntry)
    (task_name d out : String) (compression_format : String) :
    FS × List LogEntry :=
  match compressBody ioFault fs d out compression_format with
  | .ok fs' =>
    (fs', logs ++ [⟨task_name, some d, some out, "Compressed", "INFO"⟩])
  | .error e =>
    (fs, logs ++ [⟨task_name, some d, some out, "Error: " ++ e, "ERROR"⟩])

/-- The archive file name `f"{os.path.basename(directory)}_{int(time.time())}.{compression_format}"`. -/
def archiveName (directory : String) (t : Nat) (compression_format : String) :
    String :=
  basename directory ++ "_" ++ Nat.repr t ++ "." ++ compression_format

/-- Embedding of `file_compression_task` (`scheduler.py` lines 136-145): the compression
handler bound to the trigger, invoked at wall-clock second `t`. -/
def file_compression_task (ioFault : Option String) (t : Nat) (fs : FS)
    (logs : List LogEntry) (task_name directory compression_format : String) :
    FS × List LogEntry :=
  match getVal directory fs with
  | none =>
    (fs, logs ++ [⟨task_name, some directory, none, "Directory not found",
                   "ERROR"⟩])
  | some _ =>
    let out := archiveName directory t compression_format
    compress_files ioFault fs logs task_name directory (joinPath directory out)
      compression_format

/-- Python truthiness of an optional string argument (`if compression_format:`
and `if not input_format:` treat both `None` and `""` as false). -/
def isTruthy : Option String → Bool
  | none => false
  | some s => ¬ s = ""

/-- Embedding of `file_task` (`backend/services/file_tasks.py` lines 18-47): the backend
handler.  With a truthy `compression_format` it compresses the directory
inside a `try`/`except Exception` block; otherwise it appends a single
"Task executed" record. -/
def file_task (ioFault : Option String) (t : Nat) (fs : FS)
    (logs : List LogEntry) (task_name directory : String)
    (compression_format : Option String) : FS × List LogEntry :=
  match getVal directory fs with
  | none =>
    (fs, logs ++ [⟨task_name, some directory, none, "Directory not found",
                   "ERROR"⟩])
  | some _ =>
    if isTruthy compression_format then
      let fmt := compression_format.getD ""
      let out := joinPath directory (archiveName directory t fmt)
      match compressBody ioFault fs directory out fmt with
      | .ok fs' =>
        (fs', logs ++ [⟨task_name, some directory, some out, "Compressed",
                        "INFO"⟩])
      | .error e =>
        (fs, logs ++ [⟨task_name, some directory, some out, "Error: " ++ e,
                       "ERROR"⟩])
    else
      (fs, logs ++ [⟨task_name, some directory, none, "Task executed",
                     "INFO"⟩])

/-! ### Scheduler state and registry operations (`scheduler.py` lines 147-283)

`SchedState.store` is the task table held in the JSON file (every operation
begins with `load_tasks()` and persists with `save_tasks`; the store round
trip is proved exact separately, so the table is carried directly).
`SchedState.registry` is APScheduler's job table, `SchedState.logs` the
MongoDB history sink. -/

structure SchedState where
  store : List (String × TaskRec)
  registry : List (String × Job)
  logs : List LogEntry
deriving DecidableEq, Repr

/-- Model of `scheduler.add_job(fn, trigger, args, id=name, replace_existing=True)`:
replace the job registered under `name` if any, else add it. -/
def addJobReplace (reg : List (String × Job)) (n : String) (j : Job) :
    List (String × Job) :=
  dictSet reg n j

/-- Model of `scheduler.remove_job(name)`: APScheduler removes the job with that id,
or raises `JobLookupError` when none exists. -/
def removeJob (reg : List (String × Job)) (n : String) :
    Except String (List (String × Job)) :=
  if (getVal n reg).isSome then .ok (delKey reg n)
  else .error "JobLookupError"

/-- Rendering of an optional-string argument inside an f-string:
`None` prints as `"None"`. -/
def pyShow : Option String → String
  | none => "None"
  | some s => s

/-- The deterministic task name
`f"task_{interval}_{unit}_{task_type}"` plus, per task type, the format
fields (`scheduler.py` lines 150-155).  The directory is not an input. -/
def task_name_of (interval : Int) (unit task_type : String)
    (input_format output_format compression_format : Option String) : String :=
  let base := "task_" ++ toString interval ++ "_" ++ unit ++ "_" ++ task_type
  if task_type = "conversion" then
    base ++ "_" ++ pyShow input_format ++ "_" ++ pyShow output_format
  else if task_type = "compression" then
    base ++ "_" ++ pyShow compression_format
  else base

/-- The `if unit == "seconds": trigger = IntervalTrigger(seconds=interval)`
chain (`scheduler.py` lines 161-171); an unrecognised unit yields no trigger. -/
def intervalTrigger (unit : String) (interval : Int) : Option Trigger :=
  if unit = "seconds" then some ⟨.seconds, interval⟩
  else if unit = "minutes" then some ⟨.minutes, interval⟩
  else if unit = "hours" then some ⟨.hours, interval⟩
  else if unit = "days" then some ⟨.days, interval⟩
  else none

def pyOfOptStr : Option String → PyVal
  | none => .pnone
  | some s => .pstr s

/-- The task dictionary persisted by `add_task` (`scheduler.py` lines
199-207): all seven keys are written, absent optional parameters as `None`. -/
def rec_of (interval : Int) (unit directory task_type : String)
    (input_format output_format compression_format : Option String) :
    TaskRec :=
  ⟨some (.pint interval), some (.pstr unit), some (.pstr directory),
   some (.pstr task_type), some (pyOfOptStr input_format),
   some (pyOfOptStr output_format), some (pyOfOptStr compression_format)⟩

/-- The "scheduled" Execution Record
(`log_to_mongodb(task_name, directory, None, f"Task scheduled every {interval} {unit}")`). -/
def schedRecord (name directory : String) (interval : Int) (unit : String) :
    LogEntry :=
  ⟨name, some directory, none,
   "Task scheduled every " ++ toString interval ++ " " ++ unit, "INFO"⟩

/-- Result of `add_task`, mirroring its distinct `print`/`return` exits. -/
inductive AddResult where
  | alreadyScheduled (name : String) : AddResult
  | unsupportedUnit (unit : String) : AddResult
  | missingParameter : AddResult
  | unsupportedTaskType (t : String) : AddResult
  | scheduled (name : String) : AddResult
deriving DecidableEq, Repr

/-- Embedding of `add_task` (`scheduler.py` lines 147-210), translated branch for branch:
name collision check first, then the unit chain, then the task-type branch
with its required-parameter check; only the success paths register a job,
persist the task and append the "scheduled" record. -/
def add_task (st : SchedState) (interval : Int)
    (unit directory task_type : String)
    (input_format output_format compression_format : Option String) :
    AddResult × SchedState :=
  let name := task_name_of interval unit task_type input_format output_format
    compression_format
  if (getVal name st.store).isSome then (.alreadyScheduled name, st)
  else
    match intervalTrigger unit interval with
    | none => (.unsupportedUnit unit, st)
    | some trig =>
      if task_type = "conversion" then
        if isTruthy input_format && isTruthy output_format then
          let job : Job := ⟨trig, .conversion name (.pstr directory)
            (pyOfOptStr input_format) (pyOfOptStr output_format)⟩
          (.scheduled name,
           { store := dictSet st.store name (rec_of interval unit directory
               task_type input_format output_format compression_format),
             registry := addJobReplace st.registry name job,
             logs := st.logs ++ [schedRecord name directory interval unit] })
        else (.missingParameter, st)
      else if task_type = "compression" then
        if isTruthy compression_format then
          let job : Job := ⟨trig, .compression name (.pstr directory)
            (pyOfOptStr compression_format)⟩
          (.scheduled name,
           { store := dictSet st.store name (rec_of interval unit directory
               task_type input_format output_format compression_format),
             registry := addJobReplace st.registry name job,
             logs := st.logs ++ [schedRecord name directory interval unit] })
        else (.missingParameter, st)
      else (.unsupportedTaskType task_type, st)

inductive RemoveResult where
  | removed : RemoveResult
  | notFound : RemoveResult
deriving DecidableEq, Repr

/-- Embedding of `remove_task` (`scheduler.py` lines 212-222).  When the name is in the
store, `scheduler.remove_job(task_name)` runs first and with no surrounding
`try` block; if it raises `JobLookupError` the exception propagates and the
store deletion, save and log never execute. -/
def remove_task (st : SchedState) (task_name : String) :
    Except String (RemoveResult × SchedState) :=
  if (getVal task_name st.store).isSome then
    match removeJob st.registry task_name with
    | .error e => .error e
    | .ok reg' =>
      .ok (.removed,
        { store := delKey st.store task_name,
          registry := reg',
          logs := st.logs ++ [⟨task_name, none, none, "Task removed",
                               "INFO"⟩] })
  else .ok (.notFound, st)

/-- Embedding of `list_tasks` (`scheduler.py` lines 224-237): a read-only snapshot of the
store (the printed summaries are one line per stored entry). -/
def list_tasks (st : SchedState) : List (String × TaskRec) :=
  st.store

/-! ### Bootstrap / reconcile: `load_and_schedule_tasks`
(`scheduler.py` lines 239-283) -/

/-- Model of `all(k in details for k in ["interval", "unit", "directory", "task_type"])`. -/
def requiredKeys (d : TaskRec) : Bool :=
  d.interval.isSome && d.unit.isSome && d.directory.isSome &&
    d.task_type.isSome

/-- The `details["unit"] == "seconds" ...` chain of the reconcile loop. -/
def unitOf : PyVal → Option TimeUnit
  | .pstr "seconds" => some .seconds
  | .pstr "minutes" => some .minutes
  | .pstr "hours" => some .hours
  | .pstr "days" => some .days
  | _ => none

/-- Model of `IntervalTrigger(seconds=details["interval"])`: `timedelta` raises
`TypeError` unless the component is a number. -/
def trigOf (u : TimeUnit) : PyVal → Except String Trigger
  | .pint n => .ok ⟨u, n⟩
  | _ => .error "TypeError: unsupported type for timedelta seconds component"

def pyvalStr : PyVal → String
  | .pnone => "None"
  | .pstr s => s
  | .pint n => toString n

/-- The job registered by the reconcile loop for a given entry, if its
`task_type` is one of the two dispatched ones; the argument defaults mirror
`details.get("directory", "N/A")`, `details.get("input_format", "txt")`,
`details.get("output_format", "csv")` and
`details.get("compression_format", "zip")`. -/
def reconcileJob (name : String) (d : TaskRec) (trig : Trigger) : Option Job :=
  if d.task_type = some (.pstr "conversion") then
    some ⟨trig, .conversion name (d.directory.getD (.pstr "N/A"))
      (d.input_format.getD (.pstr "txt")) (d.output_format.getD (.pstr "csv"))⟩
  else if d.task_type = some (.pstr "compression") then
    some ⟨trig, .compression name (d.directory.getD (.pstr "N/A"))
      (d.compression_format.getD (.pstr "zip"))⟩
  else none

/-- The loop body of `load_and_schedule_tasks`, entry by entry.  Note the two
warned skips (missing required fields; unsupported unit) and the silent skip
when `task_type` matches neither dispatch branch (the `if/elif` has no `else`).
A `TypeError` from `IntervalTrigger` propagates and aborts the whole loop. -/
def reconcileLoop :
    List (String × TaskRec) → List (String × Job) → List String →
    Except String (List (String × Job) × List String)
  | [], reg, warns => .ok (reg, warns)
  | (name, d) :: rest, reg, warns =>
    if requiredKeys d = false then
      reconcileLoop rest reg (warns ++
        ["Skipping task '" ++ name ++ "': Missing required fields."])
    else
      match unitOf (d.unit.getD .pnone) with
      | none =>
        reconcileLoop rest reg (warns ++
          ["Unsupported time unit '" ++ pyvalStr (d.unit.getD .pnone) ++
           "'. Task not scheduled."])
      | some u =>
        match trigOf u (d.interval.getD .pnone) with
        | .error e => .error e
        | .ok trig =>
          match reconcileJob name d trig with
          | some job => reconcileLoop rest (addJobReplace reg name job) warns
          | none => reconcileLoop rest reg warns

/-- Embedding of `load_and_schedule_tasks`: reads the store once, registers a trigger per
well-formed entry (`replace_existing=True`), never writes the store and never
logs to the history sink; warnings go to stdout only. -/
def load_and_schedule_tasks (st : SchedState) :
    Except String (SchedState × List String) :=
  match reconcileLoop st.store st.registry [] with
  | .error e => .error e
  | .ok (reg, warns) => .ok ({ st with registry := reg }, warns)

/-- The state with its registry replaced (store and logs untouched). -/
def withRegistry (st : SchedState) (reg : List (String × Job)) : SchedState :=
  { st with registry := reg }

/-! ### Specification-side helpers and concrete example states -/

/-- The decimal value of a digit character. -/
def digitVal (c : Char) : Nat := c.toNat - 48

/-- Reading a digit string back into the natural number it denotes. -/
def decodeDigits (l : List Char) : Nat :=
  l.foldl (fun acc c => 10 * acc + digitVal c) 0

/-- The number of Execution Records one `file_conversion_task` invocation
appends: one for a missing directory, one per matching file, and a single
informational record when nothing matched. -/
def convRecordCount (fs : FS) (directory input_format : String) : Nat :=
  match getVal directory fs with
  | none => 1
  | some files =>
    let m := files.countP (fun f => endswith f ("." ++ input_format))
    if m = 0 then 1 else m

/-- The warning a reconcile-loop iteration prints for an entry, if any:
missing required fields and an unsupported unit warn; an unrecognised
`task_type` falls through both dispatch branches silently. -/
def entryWarn (e : String × TaskRec) : Option String :=
  if requiredKeys e.2 = false then
    some ("Skipping task '" ++ e.1 ++ "': Missing required fields.")
  else if (unitOf (e.2.unit.getD .pnone)).isNone then
    some ("Unsupported time unit '" ++ pyvalStr (e.2.unit.getD .pnone) ++
          "'. Task not scheduled.")
  else none

/-- The job the reconcile loop registers for an entry, when it registers one. -/
def entryJob (e : String × TaskRec) : Option (String × Job) :=
  if requiredKeys e.2 = true then
    match unitOf (e.2.unit.getD .pnone), e.2.interval with
    | some u, some (.pint n) =>
      (reconcileJob e.1 e.2 ⟨u, n⟩).map (fun j => (e.1, j))
    | _, _ => none
  else none

/-- An entry whose `interval` value, when it is actually read to build a
trigger, is an integer (a non-integer value would make `IntervalTrigger`
raise `TypeError`, aborting the whole bootstrap). -/
def wellTypedEntry (e : String × TaskRec) : Prop :=
  requiredKeys e.2 = true → (unitOf (e.2.unit.getD .pnone)).isSome = true →
    ∃ n : Int, e.2.interval = some (.pint n)

/-- The registry produced by running the reconcile loop over the given
entries: each entry that yields a job is registered with replacement by
name, the rest are skipped. -/
def applyValid :
    List (String × TaskRec) → List (String × Job) → List (String × Job)
  | [], reg => reg
  | e :: rest, reg =>
    match entryJob e with
    | some (n, j) => applyValid rest (addJobReplace reg n j)
    | none => applyValid rest reg

/-- A compression task dictionary as `add_task` would persist it. -/
def exRec : TaskRec :=
  rec_of 1 "seconds" "d" "compression" none none (some "zip")

/-- A state whose store contains task `t` but whose registry holds no job
with that id (for instance after a bootstrap that skipped the entry, or
before bootstrap ran). -/
def exStALone : SchedState := ⟨[("t", exRec)], [], []⟩

/-- A state in which task `t` is present both in the store and, with a live
trigger, in the registry. -/
def exJob : Job :=
  ⟨⟨.seconds, 1⟩, .compression "t" (.pstr "d") (.pstr "zip")⟩

def exStBoth : SchedState := ⟨[("t", exRec)], [("t", exJob)], []⟩

/-- A persisted entry with all required fields present, a supported unit and
an integer interval, but a `task_type` neither dispatch branch recognises. -/
def weirdRec : TaskRec :=
  ⟨some (.pint 1), some (.pstr "seconds"), some (.pstr "d"),
   some (.pstr "weird"), none, none, none⟩

def weirdSt : SchedState := ⟨[("x", weirdRec)], [], []⟩

/-- A directory holding two `.txt` files, for the conversion handler. -/
def twoTxtFs : FS := [("d", ["a.txt", "b.txt"])]
/-! ### Dictionary lemmas -/

theorem dictSet_of_absent {α : Type} (d : List (String × α)) (k : String)
    (v : α) (h : getVal k d = none) : dictSet d k v = d ++ [(k, v)] := by
  induction d with
  | nil => rfl
  | cons p rest ih =>
    obtain ⟨k', v'⟩ := p
    unfold getVal at h
    by_cases hk : k' = k
    · simp [hk] at h
    · simp only [hk, if_false] at h
      simp [dictSet, hk, ih h]

theorem getVal_dictSet_self {α : Type} (d : List (String × α)) (k : String)
    (v : α) : getVal k (dictSet d k v) = some v := by
  induction d with
  | nil => simp [dictSet, getVal]
  | cons p rest ih =>
    obtain ⟨k', v'⟩ := p
    by_cases hk : k' = k
    · simp [dictSet, hk, getVal]
    · simp [dictSet, hk, getVal, ih]

theorem getVal_dictSet_other {α : Type} (d : List (String × α)) (k m : String)
    (v : α) (h : m ≠ k) : getVal m (dictSet d k v) = getVal m d := by
  have hkm : ¬ k = m := fun hh => h hh.symm
  induction d with
  | nil => simp [dictSet, getVal, hkm]
  | cons p rest ih =>
    obtain ⟨k', v'⟩ := p
    by_cases hk : k' = k
    · subst hk
      simp [dictSet, getVal, hkm]
    · by_cases hm : k' = m
      · simp [dictSet, hk, getVal, hm, h]
      · simp [dictSet, hk, getVal, hm, ih]

theorem keys_dictSet {α : Type} (d : List (String × α)) (k : String) (v : α) :
    (dictSet d k v).map Prod.fst = d.map Prod.fst ∨
    (dictSet d k v).map Prod.fst = d.map Prod.fst ++ [k] := by
  induction d with
  | nil => right; rfl
  | cons p rest ih =>
    obtain ⟨k', v'⟩ := p
    by_cases hk : k' = k
    · left; simp [dictSet, hk]
    · cases ih with
      | inl h => left; simp [dictSet, hk, h]
      | inr h => right; simp [dictSet, hk, h]

theorem nodupKeys_dictSet {α : Type} (d : List (String × α)) (k : String)
    (v : α) (h : (d.map Prod.fst).Nodup) :
    ((dictSet d k v).map Prod.fst).Nodup := by
  induction d with
  | nil => simp [dictSet]
  | cons p rest ih =>
    obtain ⟨k', v'⟩ := p
    simp only [List.map_cons, List.nodup_cons] at h
    by_cases hk : k' = k
    · subst hk
      simpa [dictSet, List.nodup_cons] using h
    · simp only [dictSet, hk, if_false, List.map_cons, List.nodup_cons]
      refine ⟨?_, ih h.2⟩
      cases keys_dictSet rest k v with
      | inl hkeys => rw [hkeys]; exact h.1
      | inr hkeys =>
        rw [hkeys]
        simp only [List.mem_append, List.mem_singleton]
        rintro (hc | hc)
        · exact h.1 hc
        · exact hk hc

theorem getVal_eq_none_of_not_mem_keys {α : Type} (k : String)
    (d : List (String × α)) (h : k ∉ d.map Prod.fst) : getVal k d = none := by
  induction d with
  | nil => rfl
  | cons p rest ih =>
    simp only [List.map_cons, List.mem_cons] at h
    push_neg at h
    unfold getVal
    simp [Ne.symm h.1, ih h.2]

theorem mem_keys_of_getVal_some {α : Type} (k : String)
    (d : List (String × α)) (v : α) (h : getVal k d = some v) :
    k ∈ d.map Prod.fst := by
  induction d with
  | nil => simp [getVal] at h
  | cons p rest ih =>
    unfold getVal at h
    by_cases hk : p.1 = k
    · simp [← hk]
    · simp only [hk, if_false] at h
      simp [ih h]

/-- On a table with no duplicate keys, re-inserting every binding of the table
into an accumulator it extends reproduces the table unchanged. -/
theorem foldl_dictSet_of_nodup {α : Type} (t d : List (String × α))
    (h : ((d ++ t).map Prod.fst).Nodup) :
    t.foldl (fun acc p => dictSet acc p.1 p.2) d = d ++ t := by
  induction t generalizing d with
  | nil => simp
  | cons p rest ih =>
    obtain ⟨k, v⟩ := p
    have hk : getVal k d = none := by
      apply getVal_eq_none_of_not_mem_keys
      intro hmem
      simp only [List.map_append, List.map_cons] at h
      have h2 := (List.nodup_append.mp h).2.2
      exact h2 hmem (by simp)
    have hins : dictSet d k v = d ++ [(k, v)] := dictSet_of_absent d k v hk
    simp only [List.foldl_cons, hins]
    rw [ih (d ++ [(k, v)]) (by simpa using h)]
    simp

theorem nodupKeys_jsonObjToDict_aux (ms : List (String × Json))
    (d : List (String × Json)) (h : (d.map Prod.fst).Nodup) :
    ((ms.foldl (fun acc p => dictSet acc p.1 p.2) d).map Prod.fst).Nodup := by
  induction ms generalizing d with
  | nil => simpa using h
  | cons p rest ih =>
    simp only [List.foldl_cons]
    exact ih _ (nodupKeys_dictSet d p.1 p.2 h)

theorem nodupKeys_jsonObjToDict (ms : List (String × Json)) :
    ((jsonObjToDict ms).map Prod.fst).Nodup :=
  nodupKeys_jsonObjToDict_aux ms [] (by simp)

theorem jsonObjToDict_of_nodup (t : List (String × Json))
    (h : (t.map Prod.fst).Nodup) : jsonObjToDict t = t := by
  unfold jsonObjToDict
  simpa using foldl_dictSet_of_nodup t [] (by simpa using h)


/-! ### Decimal rendering: `Nat.repr` is injective

`int(time.time())` interpolated into an f-string is the decimal rendering of
the timestamp; two distinct timestamps therefore produce distinct archive
names.  Lean's `Nat.repr` is that rendering. -/

theorem toDigitsCore_acc (b : Nat) (fuel : Nat) :
    ∀ (n : Nat) (ds : List Char),
      Nat.toDigitsCore b fuel n ds = Nat.toDigitsCore b fuel n [] ++ ds := by
  induction fuel with
  | zero => intro n ds; simp [Nat.toDigitsCore]
  | succ f ih =>
    intro n ds
    simp only [Nat.toDigitsCore]
    by_cases h : n / b = 0
    · simp [h]
    · simp only [h, if_false]
      rw [ih (n / b) (Nat.digitChar (n % b) :: ds),
          ih (n / b) [Nat.digitChar (n % b)]]
      simp

theorem digitVal_digitChar (m : Nat) (h : m < 10) :
    digitVal (Nat.digitChar m) = m := by
  interval_cases m <;> rfl

theorem decode_toDigitsCore (fuel : Nat) :
    ∀ n : Nat, n < fuel →
      decodeDigits (Nat.toDigitsCore 10 fuel n []) = n := by
  induction fuel with
  | zero => intro n h; omega
  | succ f ih =>
    intro n h
    have hmod : n % 10 < 10 := Nat.mod_lt _ (by norm_num)
    have hdm := Nat.div_add_mod n 10
    simp only [Nat.toDigitsCore]
    by_cases hdiv : n / 10 = 0
    · have hn : n < 10 := by omega
      simp [hdiv, decodeDigits, digitVal_digitChar _ hmod]
      omega
    · have hpos : 0 < n := by
        rcases Nat.eq_zero_or_pos n with h0 | h0
        · exact absurd (by simp [h0]) hdiv
        · exact h0
      have hlt : n / 10 < f := by
        have := Nat.div_lt_self hpos (by norm_num : (1 : Nat) < 10)
        omega
      simp only [hdiv, if_false]
      rw [toDigitsCore_acc 10 f (n / 10) [Nat.digitChar (n % 10)]]
      unfold decodeDigits
      rw [List.foldl_append]
      have hih := ih (n / 10) hlt
      unfold decodeDigits at hih
      rw [hih]
      simp [digitVal_digitChar _ hmod]
      omega

theorem string_data_inj {s t : String} (h : s.data = t.data) : s = t := by
  cases s; cases t; exact congrArg String.mk h

theorem data_append (s t : String) : (s ++ t).data = s.data ++ t.data := rfl

theorem natRepr_injective {m n : Nat} (h : Nat.repr m = Nat.repr n) :
    m = n := by
  have hl : Nat.toDigits 10 m = Nat.toDigits 10 n := by
    have hd := congrArg String.data h
    simpa [Nat.repr, List.asString] using hd
  have hm := decode_toDigitsCore (m + 1) m (by omega)
  have hn := decode_toDigitsCore (n + 1) n (by omega)
  unfold Nat.toDigits at hl
  rw [← hm, ← hn, hl]

theorem archiveName_injective (d fmt : String) {t1 t2 : Nat}
    (h : archiveName d t1 fmt = archiveName d t2 fmt) : t1 = t2 := by
  unfold archiveName at h
  have hd := congrArg String.data h
  simp only [data_append, List.append_assoc] at hd
  have h1 := List.append_cancel_left hd
  have h2 := List.append_cancel_left h1
  have h3 : (Nat.repr t1).data ++ (".".data ++ fmt.data) =
      (Nat.repr t2).data ++ (".".data ++ fmt.data) := by
    simpa [List.append_assoc] using h2
  have h4 := List.append_cancel_right h3
  exact natRepr_injective (string_data_inj h4)

theorem joinPath_injective_right (d : String) {f1 f2 : String}
    (h : joinPath d f1 = joinPath d f2) : f1 = f2 := by
  unfold joinPath at h
  have hd := congrArg String.data h
  simp only [data_append, List.append_assoc] at hd
  have h1 := List.append_cancel_left hd
  have h2 := List.append_cancel_left h1
  exact string_data_inj h2

/-! ### Filesystem and registry lemmas -/

theorem getVal_addFileAt_self (fs : FS) (d f : String) :
    getVal d (addFileAt fs d f) =
      (getVal d fs).map (fun files => if f ∈ files then files else files ++ [f]) := by
  induction fs with
  | nil => rfl
  | cons p rest ih =>
    obtain ⟨k, files⟩ := p
    by_cases hk : k = d
    · subst hk
      simp [addFileAt, getVal]
    · simp [addFileAt, getVal, hk, ih]

theorem getVal_addFileAt_other (fs : FS) (d d2 f : String) (h : d2 ≠ d) :
    getVal d2 (addFileAt fs d f) = getVal d2 fs := by
  induction fs with
  | nil => rfl
  | cons p rest ih =>
    obtain ⟨k, files⟩ := p
    by_cases hk : k = d
    · subst hk
      simp [addFileAt, getVal, Ne.symm h, ih]
    · by_cases hk2 : k = d2
      · subst hk2
        simp [addFileAt, getVal, hk, ih]
      · simp [addFileAt, getVal, hk, hk2, ih]

theorem countP_eq_zero_of_not_mem_keys {α : Type} (d : List (String × α))
    (m : String) (h : m ∉ d.map Prod.fst) :
    d.countP (fun p => p.1 = m) = 0 := by
  induction d with
  | nil => rfl
  | cons p rest ih =>
    simp only [List.map_cons, List.mem_cons] at h
    push_neg at h
    rw [List.countP_cons]
    simp [Ne.symm h.1, ih h.2]

theorem countP_keys_eq_one {α : Type} (d : List (String × α)) (m : String)
    (v : α) (hnd : (d.map Prod.fst).Nodup) (h : getVal m d = some v) :
    d.countP (fun p => p.1 = m) = 1 := by
  induction d with
  | nil => simp [getVal] at h
  | cons p rest ih =>
    simp only [List.map_cons, List.nodup_cons] at hnd
    unfold getVal at h
    rw [List.countP_cons]
    by_cases hk : p.1 = m
    · subst hk
      have : rest.countP (fun q => q.1 = p.1) = 0 :=
        countP_eq_zero_of_not_mem_keys rest p.1 hnd.1
      simp [this]
    · simp only [hk, if_false] at h
      simp [hk, ih hnd.2 h]

/-! ### Conversion-loop lemmas -/

theorem convLoop_count (task_name directory input_format output_format : String) :
    ∀ (files : List String) (fs : FS) (logs : List LogEntry),
      (convLoop fs logs task_name directory input_format output_format
        files).2.2 =
      files.countP (fun f => endswith f ("." ++ input_format)) := by
  intro files
  induction files with
  | nil => intro fs logs; rfl
  | cons fname rest ih =>
    intro fs logs
    rw [List.countP_cons]
    by_cases hm : endswith fname ("." ++ input_format)
    · simp [convLoop, hm, ih]
    · simp [convLoop, hm, ih]

theorem convert_file_logs (fs : FS) (logs : List LogEntry)
    (task_name d in_name out_name input_format output_format : String) :
    (convert_file fs logs task_name d in_name out_name input_format
      output_format).2.length = logs.length + 1 := by
  unfold convert_file
  by_cases hm : (input_format, output_format) ∈ convFormats
  · simp [hm]
  · simp [hm]

theorem convLoop_logs (task_name directory input_format output_format : String) :
    ∀ (files : List String) (fs : FS) (logs : List LogEntry),
      (convLoop fs logs task_name directory input_format output_format
        files).2.1.length =
      logs.length + files.countP (fun f => endswith f ("." ++ input_format)) := by
  intro files
  induction files with
  | nil => intro fs logs; rfl
  | cons fname rest ih =>
    intro fs logs
    rw [List.countP_cons]
    by_cases hm : endswith fname ("." ++ input_format)
    · simp only [convLoop, hm, if_true]
      rw [ih, convert_file_logs]
      omega
    · simp [convLoop, hm, ih]

/-! ### Reconcile-loop lemmas -/

theorem entryJob_key (e : String × TaskRec) (n : String) (j : Job)
    (h : entryJob e = some (n, j)) : n = e.1 := by
  unfold entryJob at h
  split at h
  · split at h
    · simp only [Option.map_eq_some'] at h
      obtain ⟨j2, hj2, hpair⟩ := h
      have := congrArg Prod.fst hpair
      simpa using this.symm
    · simp at h
  · simp at h

/-- Running the reconcile loop over well-typed entries: it never raises, its
registry is `applyValid`, and its warnings are exactly those of the
missing-field and unsupported-unit entries. -/
theorem reconcileLoop_eq (es : List (String × TaskRec)) :
    ∀ (reg : List (String × Job)) (warns : List String),
      (∀ e ∈ es, wellTypedEntry e) →
      reconcileLoop es reg warns =
        .ok (applyValid es reg, warns ++ es.filterMap entryWarn) := by
  induction es with
  | nil => intro reg warns _; simp [reconcileLoop, applyValid]
  | cons e rest ih =>
    intro reg warns hwt
    obtain ⟨name, d⟩ := e
    have hwt0 : wellTypedEntry (name, d) := hwt _ (by simp)
    have hwtr : ∀ x ∈ rest, wellTypedEntry x := fun x hx => hwt _ (by simp [hx])
    have IH : ∀ (r : List (String × Job)) (w : List String),
        reconcileLoop rest r w =
          .ok (applyValid rest r, w ++ rest.filterMap entryWarn) :=
      fun r w => ih r w hwtr
    by_cases hr : requiredKeys d = true
    · rcases hu : unitOf (d.unit.getD .pnone) with _ | u
      · have hej : entryJob (name, d) = none := by
          simp [entryJob, hr, hu]
        have hew : entryWarn (name, d) =
            some ("Unsupported time unit '" ++ pyvalStr (d.unit.getD .pnone) ++
                  "'. Task not scheduled.") := by
          simp [entryWarn, hr, hu]
        simp [reconcileLoop, hr, hu, IH, applyValid, hej, hew]
      · obtain ⟨n, hn0⟩ := hwt0 hr (by simp [hu])
        have hn : d.interval = some (.pint n) := hn0
        rcases hj : reconcileJob name d ⟨u, n⟩ with _ | job
        · have hej : entryJob (name, d) = none := by
            simp [entryJob, hr, hu, hn, hj]
          have hew : entryWarn (name, d) = none := by
            simp [entryWarn, hr, hu]
          simp [reconcileLoop, hr, hu, hn, trigOf, hj, IH, applyValid, hej, hew]
        · have hej : entryJob (name, d) = some (name, job) := by
            simp [entryJob, hr, hu, hn, hj]
          have hew : entryWarn (name, d) = none := by
            simp [entryWarn, hr, hu]
          simp [reconcileLoop, hr, hu, hn, trigOf, hj, IH, applyValid, hej, hew]
    · have hrf : requiredKeys d = false := by simpa using hr
      have hej : entryJob (name, d) = none := by simp [entryJob, hrf]
      have hew : entryWarn (name, d) =
          some ("Skipping task '" ++ name ++ "': Missing required fields.") := by
        simp [entryWarn, hrf]
      simp [reconcileLoop, hrf, IH, applyValid, hej, hew]

/-- Entries none of whose jobs are registered under key `m` leave the
binding of `m` untouched. -/
theorem getVal_applyValid_untouched (es : List (String × TaskRec)) :
    ∀ (reg : List (String × Job)) (m : String),
      (∀ e ∈ es, ∀ j, entryJob e ≠ some (m, j)) →
      getVal m (applyValid es reg) = getVal m reg := by
  induction es with
  | nil => intro reg m _; rfl
  | cons e rest ih =>
    intro reg m hm
    rcases hj : entryJob e with _ | nj
    · simp only [applyValid, hj]
      exact ih _ _ (fun x hx => hm x (by simp [hx]))
    · obtain ⟨n, j⟩ := nj
      simp only [applyValid, hj]
      have hne : n ≠ m := by
        intro heq
        exact hm e (by simp) j (by rw [hj, heq])
      rw [ih _ _ (fun x hx => hm x (by simp [hx]))]
      exact getVal_dictSet_other reg n m j (Ne.symm hne)

/-- A valid entry of a duplicate-free store ends up registered with exactly
its job. -/
theorem getVal_applyValid_mem (es : List (String × TaskRec)) :
    ∀ (reg : List (String × Job)) (n : String) (d : TaskRec) (j : Job),
      (es.map Prod.fst).Nodup → (n, d) ∈ es → entryJob (n, d) = some (n, j) →
      getVal n (applyValid es reg) = some j := by
  induction es with
  | nil => intro _ _ _ _ _ h _; simp at h
  | cons e rest ih =>
    intro reg n d j hnd hmem hj
    simp only [List.map_cons, List.nodup_cons] at hnd
    rcases List.mem_cons.mp hmem with heq | hmem2
    · subst heq
      simp only [applyValid, hj]
      rw [getVal_applyValid_untouched rest _ n ?_]
      · exact getVal_dictSet_self reg n j
      · intro x hx j2 hx2
        have hkey := entryJob_key x n j2 hx2
        have hx1 : x.1 ∈ rest.map Prod.fst := List.mem_map_of_mem Prod.fst hx
        rw [← hkey] at hx1
        exact hnd.1 hx1
    · rcases hj2 : entryJob e with _ | nj
      · simp only [applyValid, hj2]
        exact ih _ _ _ _ hnd.2 hmem2 hj
      · obtain ⟨n2, j2⟩ := nj
        simp only [applyValid, hj2]
        exact ih _ _ _ _ hnd.2 hmem2 hj

theorem nodupKeys_applyValid (es : List (String × TaskRec)) :
    ∀ reg : List (String × Job),
      (reg.map Prod.fst).Nodup →
      ((applyValid es reg).map Prod.fst).Nodup := by
  induction es with
  | nil => intro reg h; exact h
  | cons e rest ih =>
    intro reg h
    rcases hj : entryJob e with _ | nj
    · simp only [applyValid, hj]; exact ih _ h
    · obtain ⟨n, j⟩ := nj
      simp only [applyValid, hj]
      exact ih _ (nodupKeys_dictSet reg n j h)

/-- Re-running `applyValid` over the same duplicate-free entries does not
change any binding: registration is idempotent by name. -/
theorem getVal_applyValid_idem (es : List (String × TaskRec))
    (reg : List (String × Job)) (m : String)
    (hnd : (es.map Prod.fst).Nodup) :
    getVal m (applyValid es (applyValid es reg)) =
      getVal m (applyValid es reg) := by
  by_cases hex : ∃ d j, (m, d) ∈ es ∧ entryJob (m, d) = some (m, j)
  · obtain ⟨d, j, hmem, hj⟩ := hex
    rw [getVal_applyValid_mem es _ m d j hnd hmem hj,
        getVal_applyValid_mem es _ m d j hnd hmem hj]
  · push_neg at hex
    have huntouched : ∀ e ∈ es, ∀ j, entryJob e ≠ some (m, j) := by
      intro e he j hj
      have hkey := entryJob_key e m j hj
      obtain ⟨k, d⟩ := e
      simp only at hkey
      subst hkey
      exact hex d j he hj
    rw [getVal_applyValid_untouched es _ m huntouched]

theorem intervalTrigger_eq_none_iff (unit : String) (i : Int) :
    intervalTrigger unit i = none ↔
      unit ∉ (["seconds", "minutes", "hours", "days"] : List String) := by
  unfold intervalTrigger
  split_ifs with h1 h2 h3 h4 <;> simp_all

/-! ### Claim theorems -/

/-- C7: `load_tasks` never raises: the body's only two possible exceptions
(`FileNotFoundError`, `json.JSONDecodeError`) are caught and turned into an
empty table, and a parsed value that is not a JSON object also yields the
empty table. -/
theorem C7_load_never_raises (f : TaskFile) :
    load_tasks_run f = .ok (load_tasks f) ∧
    (f = .missing → load_tasks f = []) ∧
    (∀ raw, f = .malformed raw → load_tasks f = []) ∧
    (∀ j, f = .parsed j → (∀ ms, j ≠ Json.jobj ms) → load_tasks f = []) := by
  refine ⟨?_, ?_, ?_, ?_⟩
  · cases f with
    | missing => rfl
    | malformed raw => rfl
    | parsed j => cases j <;> rfl
  · intro h; subst h; rfl
  · intro raw h; subst h; rfl
  · intro j h hno
    subst h
    cases j with
    | jnull => rfl
    | jbool b => rfl
    | jnum n => rfl
    | jstr s => rfl
    | jarr l => rfl
    | jobj ms => exact absurd rfl (hno ms)

theorem C7_witness : load_tasks (.parsed (Json.jnum 3)) = [] :=
  (C7_load_never_raises (.parsed (Json.jnum 3))).2.2.2 (Json.jnum 3) rfl
    (fun ms h => Json.noConfusion h)

/-- C9: persisting a freshly loaded table reproduces it exactly:
`load ∘ save ∘ load = load` for every state of the backing file. -/
theorem C9_save_load_fixed_point (f : TaskFile) :
    load_tasks (save_tasks (load_tasks f)) = load_tasks f := by
  cases f with
  | missing => rfl
  | malformed raw => rfl
  | parsed j =>
    cases j with
    | jnull => rfl
    | jbool b => rfl
    | jnum n => rfl
    | jstr s => rfl
    | jarr l => rfl
    | jobj ms =>
      exact jsonObjToDict_of_nodup _ (nodupKeys_jsonObjToDict ms)

/-- C1 (counterexample): a task present in the store but without a live
trigger in the registry.  `remove_task` calls `scheduler.remove_job` first,
with no `try` around it, so `JobLookupError` propagates: the call does not
succeed, the store entry is not removed and no "removed" record is appended —
contradicting the claim that unschedule succeeds whenever the name is in the
task table. -/
theorem C1_counterexample :
    (getVal "t" exStALone.store).isSome = true ∧
    getVal "t" exStALone.registry = none ∧
    remove_task exStALone "t" = .error "JobLookupError" ∧
    ¬ ∃ st2, remove_task exStALone "t" = .ok (RemoveResult.removed, st2) := by
  refine ⟨rfl, rfl, rfl, ?_⟩
  rintro ⟨st2, h⟩
  rw [show remove_task exStALone "t" = .error "JobLookupError" from rfl] at h
  exact Except.noConfusion h

/-- C1 (amended): for a name present in the task table, `remove_task`
removes the store entry, cancels the trigger and appends the "removed"
record when a live trigger with that name exists in the registry; when the
trigger is absent, `remove_job` raises `JobLookupError`, which propagates,
and the store entry survives. -/
theorem C1_unschedule (st : SchedState) (name : String)
    (hstore : (getVal name st.store).isSome = true) :
    (∀ j, getVal name st.registry = some j →
        remove_task st name = .ok (.removed,
          { store := delKey st.store name,
            registry := delKey st.registry name,
            logs := st.logs ++ [⟨name, none, none, "Task removed",
                                 "INFO"⟩] })) ∧
    (getVal name st.registry = none →
        remove_task st name = .error "JobLookupError") := by
  constructor
  · intro j hj
    simp [remove_task, removeJob, hstore, hj]
  · intro hreg
    simp [remove_task, removeJob, hstore, hreg]

theorem C1_unschedule_witness :
    remove_task exStBoth "t" =
      .ok (.removed, ⟨[], [], [⟨"t", none, none, "Task removed", "INFO"⟩]⟩) := by
  have h := (C1_unschedule exStBoth "t" rfl).1 exJob rfl
  rw [h]
  rfl

/-- C3: a schedule request with an unsupported unit, or with its
task-type-specific required field missing, is rejected before anything is
registered or persisted: the returned state is the input state (store,
registry and log all unchanged) and the result is the corresponding
validation error. -/
theorem C3_validation_rejects (st : SchedState) (interval : Int)
    (unit directory task_type : String)
    (input_format output_format compression_format : Option String)
    (hname : getVal (task_name_of interval unit task_type input_format
      output_format compression_format) st.store = none)
    (hbad : unit ∉ (["seconds", "minutes", "hours", "days"] : List String) ∨
      (task_type = "conversion" ∧
        (isTruthy input_format = false ∨ isTruthy output_format = false)) ∨
      (task_type = "compression" ∧ isTruthy compression_format = false)) :
    (add_task st interval unit directory task_type input_format output_format
      compression_format).2 = st ∧
    ((add_task st interval unit directory task_type input_format output_format
        compression_format).1 = .unsupportedUnit unit ∨
     (add_task st interval unit directory task_type input_format output_format
        compression_format).1 = .missingParameter) := by
  simp only [add_task, hname, Option.isSome_none, Bool.false_eq_true,
    if_false]
  rcases htr : intervalTrigger unit interval with _ | trig
  · exact ⟨rfl, Or.inl rfl⟩
  · have hunit_mem : unit ∈ (["seconds", "minutes", "hours", "days"] :
        List String) := by
      by_contra hmem
      rw [(intervalTrigger_eq_none_iff unit interval).mpr hmem] at htr
      exact Option.noConfusion htr
    rcases hbad with hmem | ⟨hconv, hmiss⟩ | ⟨hcomp, hmiss⟩
    · exact absurd hunit_mem hmem
    · subst hconv
      rcases hmiss with hm | hm <;> simp [hm]
    · subst hcomp
      simp [hmiss]

theorem C3_validation_witness :
    (add_task ⟨[], [], []⟩ 5 "fortnight" "dir" "compression" none none
      (some "zip")).2 = ⟨[], [], []⟩ :=
  (C3_validation_rejects ⟨[], [], []⟩ 5 "fortnight" "dir" "compression"
    none none (some "zip") rfl (Or.inl (by decide))).1

theorem add_task_conv_eq (st : SchedState) (interval : Int)
    (unit directory : String)
    (input_format output_format compression_format : Option String)
    (trig : Trigger) (htrig : intervalTrigger unit interval = some trig)
    (hname : getVal (task_name_of interval unit "conversion" input_format
      output_format compression_format) st.store = none)
    (hin : isTruthy input_format = true) (hout : isTruthy output_format = true) :
    add_task st interval unit directory "conversion" input_format
      output_format compression_format =
      (.scheduled (task_name_of interval unit "conversion" input_format
        output_format compression_format),
       { store := dictSet st.store (task_name_of interval unit "conversion"
           input_format output_format compression_format)
           (rec_of interval unit directory "conversion" input_format
             output_format compression_format),
         registry := addJobReplace st.registry (task_name_of interval unit
           "conversion" input_format output_format compression_format)
           ⟨trig, .conversion (task_name_of interval unit "conversion"
             input_format output_format compression_format) (.pstr directory)
             (pyOfOptStr input_format) (pyOfOptStr output_format)⟩,
         logs := st.logs ++ [schedRecord (task_name_of interval unit
           "conversion" input_format output_format compression_format)
           directory interval unit] }) := by
  simp [add_task, hname, htrig, hin, hout]

theorem add_task_comp_eq (st : SchedState) (interval : Int)
    (unit directory : String)
    (input_format output_format compression_format : Option String)
    (trig : Trigger) (htrig : intervalTrigger unit interval = some trig)
    (hname : getVal (task_name_of interval unit "compression" input_format
      output_format compression_format) st.store = none)
    (hcomp : isTruthy compression_format = true) :
    add_task st interval unit directory "compression" input_format
      output_format compression_format =
      (.scheduled (task_name_of interval unit "compression" input_format
        output_format compression_format),
       { store := dictSet st.store (task_name_of interval unit "compression"
           input_format output_format compression_format)
           (rec_of interval unit directory "compression" input_format
             output_format compression_format),
         registry := addJobReplace st.registry (task_name_of interval unit
           "compression" input_format output_format compression_format)
           ⟨trig, .compression (task_name_of interval unit "compression"
             input_format output_format compression_format) (.pstr directory)
             (pyOfOptStr compression_format)⟩,
         logs := st.logs ++ [schedRecord (task_name_of interval unit
           "compression" input_format output_format compression_format)
           directory interval unit] }) := by
  have hne : ("compression" : String) ≠ "conversion" := by decide
  simp [add_task, hname, htrig, hcomp, hne]

theorem intervalTrigger_total (unit : String) (interval : Int)
    (hunit : unit ∈ (["seconds", "minutes", "hours", "days"] : List String)) :
    ∃ trig, intervalTrigger unit interval = some trig := by
  simp only [List.mem_cons, List.mem_singleton, List.not_mem_nil,
    or_false] at hunit
  rcases hunit with h | h | h | h <;> subst h <;> exact ⟨_, rfl⟩

/-- C6: scheduling a valid task and then listing shows exactly one entry
with those parameters, and re-scheduling with identical parameters is a
no-op: it reports "already scheduled" and returns the state of the first
call unchanged (same task count, same store, same registry, same log). -/
theorem C6_schedule_then_list (st : SchedState) (interval : Int)
    (unit directory task_type : String)
    (input_format output_format compression_format : Option String)
    (hunit : unit ∈ (["seconds", "minutes", "hours", "days"] : List String))
    (htype : (task_type = "conversion" ∧ isTruthy input_format = true ∧
        isTruthy output_format = true) ∨
      (task_type = "compression" ∧ isTruthy compression_format = true))
    (hname : getVal (task_name_of interval unit task_type input_format
      output_format compression_format) st.store = none)
    (hfresh : st.store.countP (fun p => p.2 = rec_of interval unit directory
      task_type input_format output_format compression_format) = 0) :
    (add_task st interval unit directory task_type input_format output_format
      compression_format).1 =
      .scheduled (task_name_of interval unit task_type input_format
        output_format compression_format) ∧
    getVal (task_name_of interval unit task_type input_format output_format
      compression_format)
      (add_task st interval unit directory task_type input_format
        output_format compression_format).2.store =
      some (rec_of interval unit directory task_type input_format
        output_format compression_format) ∧
    (list_tasks (add_task st interval unit directory task_type input_format
      output_format compression_format).2).countP
      (fun p => p.2 = rec_of interval unit directory task_type input_format
        output_format compression_format) = 1 ∧
    add_task (add_task st interval unit directory task_type input_format
        output_format compression_format).2 interval unit directory task_type
        input_format output_format compression_format =
      (.alreadyScheduled (task_name_of interval unit task_type input_format
        output_format compression_format),
       (add_task st interval unit directory task_type input_format
         output_format compression_format).2) := by
  obtain ⟨trig, htrig⟩ := intervalTrigger_total unit interval hunit
  have hmain : ∀ st1 : SchedState,
      add_task st interval unit directory task_type input_format
        output_format compression_format =
        (.scheduled (task_name_of interval unit task_type input_format
          output_format compression_format), st1) →
      st1.store = dictSet st.store (task_name_of interval unit task_type
        input_format output_format compression_format)
        (rec_of interval unit directory task_type input_format output_format
          compression_format) →
      (add_task st interval unit directory task_type input_format
          output_format compression_format).1 =
        .scheduled (task_name_of interval unit task_type input_format
          output_format compression_format) ∧
      getVal (task_name_of interval unit task_type input_format output_format
        compression_format)
        (add_task st interval unit directory task_type input_format
          output_format compression_format).2.store =
        some (rec_of interval unit directory task_type input_format
          output_format compression_format) ∧
      (list_tasks (add_task st interval unit directory task_type input_format
        output_format compression_format).2).countP
        (fun p => p.2 = rec_of interval unit directory task_type input_format
          output_format compression_format) = 1 ∧
      add_task (add_task st interval unit directory task_type input_format
          output_format compression_format).2 interval unit directory
          task_type input_format output_format compression_format =
        (.alreadyScheduled (task_name_of interval unit task_type input_format
          output_format compression_format),
         (add_task st interval unit directory task_type input_format
           output_format compression_format).2) := by
    intro st1 hstep hstore
    have hsome : getVal (task_name_of interval unit task_type input_format
        output_format compression_format) st1.store =
        some (rec_of interval unit directory task_type input_format
          output_format compression_format) := by
      rw [hstore]; exact getVal_dictSet_self _ _ _
    refine ⟨by rw [hstep], by rw [hstep]; exact hsome, ?_, ?_⟩
    · rw [hstep]
      unfold list_tasks
      rw [hstore, dictSet_of_absent _ _ _ hname, List.countP_append, hfresh]
      simp
    · rw [hstep]
      simp [add_task, hsome]
  rcases htype with ⟨ht, hin, hout⟩ | ⟨ht, hcomp⟩
  · subst ht
    exact hmain _ (add_task_conv_eq st interval unit directory input_format
      output_format compression_format trig htrig hname hin hout) rfl
  · subst ht
    exact hmain _ (add_task_comp_eq st interval unit directory input_format
      output_format compression_format trig htrig hname hcomp) rfl

theorem C6_witness :
    (add_task ⟨[], [], []⟩ 5 "seconds" "dir" "compression" none none
      (some "zip")).1 = .scheduled "task_5_seconds_compression_zip" := by
  have h := (C6_schedule_then_list ⟨[], [], []⟩ 5 "seconds" "dir"
    "compression" none none (some "zip") (by decide)
    (Or.inr ⟨rfl, rfl⟩) rfl rfl).1
  rw [h]
  decide

/-- C10: the task name is derived from interval, unit, task type and format
fields only — `task_name_of` takes no directory argument — so a second
request agreeing on those fields but naming a different directory collides
with the first: it is answered "already scheduled", the state of the first
call is returned unchanged, and the persisted record still carries the first
directory (the two records differ precisely in their directory field). -/
theorem C10_directory_not_in_name (st : SchedState) (interval : Int)
    (unit task_type d1 d2 : String)
    (input_format output_format compression_format : Option String)
    (hd : d1 ≠ d2)
    (hunit : unit ∈ (["seconds", "minutes", "hours", "days"] : List String))
    (htype : (task_type = "conversion" ∧ isTruthy input_format = true ∧
        isTruthy output_format = true) ∨
      (task_type = "compression" ∧ isTruthy compression_format = true))
    (hname : getVal (task_name_of interval unit task_type input_format
      output_format compression_format) st.store = none) :
    (add_task st interval unit d1 task_type input_format output_format
      compression_format).1 =
      .scheduled (task_name_of interval unit task_type input_format
        output_format compression_format) ∧
    add_task (add_task st interval unit d1 task_type input_format
        output_format compression_format).2 interval unit d2 task_type
        input_format output_format compression_format =
      (.alreadyScheduled (task_name_of interval unit task_type input_format
        output_format compression_format),
       (add_task st interval unit d1 task_type input_format output_format
         compression_format).2) ∧
    getVal (task_name_of interval unit task_type input_format output_format
      compression_format)
      (add_task st interval unit d1 task_type input_format output_format
        compression_format).2.store =
      some (rec_of interval unit d1 task_type input_format output_format
        compression_format) ∧
    rec_of interval unit d1 task_type input_format output_format
        compression_format ≠
      rec_of interval unit d2 task_type input_format output_format
        compression_format := by
  obtain ⟨trig, htrig⟩ := intervalTrigger_total unit interval hunit
  have hrecne : rec_of interval unit d1 task_type input_format output_format
      compression_format ≠
      rec_of interval unit d2 task_type input_format output_format
        compression_format := by
    intro h
    have hdir := congrArg TaskRec.directory h
    simp only [rec_of, Option.some_inj, PyVal.pstr.injEq] at hdir
    exact hd hdir
  have hmain : ∀ st1 : SchedState,
      add_task st interval unit d1 task_type input_format output_format
        compression_format =
        (.scheduled (task_name_of interval unit task_type input_format
          output_format compression_format), st1) →
      st1.store = dictSet st.store (task_name_of interval unit task_type
        input_format output_format compression_format)
        (rec_of interval unit d1 task_type input_format output_format
          compression_format) →
      (add_task st interval unit d1 task_type input_format output_format
        compression_format).1 =
        .scheduled (task_name_of interval unit task_type input_format
          output_format compression_format) ∧
      add_task (add_task st interval unit d1 task_type input_format
          output_format compression_format).2 interval unit d2 task_type
          input_format output_format compression_format =
        (.alreadyScheduled (task_name_of interval unit task_type input_format
          output_format compression_format),
         (add_task st interval unit d1 task_type input_format output_format
           compression_format).2) ∧
      getVal (task_name_of interval unit task_type input_format output_format
        compression_format)
        (add_task st interval unit d1 task_type input_format output_format
          compression_format).2.store =
        some (rec_of interval unit d1 task_type input_format output_format
          compression_format) ∧
      rec_of interval unit d1 task_type input_format output_format
          compression_format ≠
        rec_of interval unit d2 task_type input_format output_format
          compression_format := by
    intro st1 hstep hstore
    have hsome : getVal (task_name_of interval unit task_type input_format
        output_format compression_format) st1.store =
        some (rec_of interval unit d1 task_type input_format output_format
          compression_format) := by
      rw [hstore]; exact getVal_dictSet_self _ _ _
    refine ⟨by rw [hstep], ?_, by rw [hstep]; exact hsome, hrecne⟩
    rw [hstep]
    simp [add_task, hsome]
  rcases htype with ⟨ht, hin, hout⟩ | ⟨ht, hcomp⟩
  · subst ht
    exact hmain _ (add_task_conv_eq st interval unit d1 input_format
      output_format compression_format trig htrig hname hin hout) rfl
  · subst ht
    exact hmain _ (add_task_comp_eq st interval unit d1 input_format
      output_format compression_format trig htrig hname hcomp) rfl

theorem C10_witness :
    (add_task ⟨[], [], []⟩ 5 "seconds" "a" "compression" none none
      (some "zip")).1 = .scheduled "task_5_seconds_compression_zip" ∧
    rec_of 5 "seconds" "a" "compression" none none (some "zip") ≠
      rec_of 5 "seconds" "b" "compression" none none (some "zip") := by
  have h := C10_directory_not_in_name ⟨[], [], []⟩ 5 "seconds" "compression"
    "a" "b" none none (some "zip") (by decide) (by decide)
    (Or.inr ⟨rfl, rfl⟩) rfl
  refine ⟨?_, h.2.2.2⟩
  rw [h.1]
  decide

theorem convRecordCount_pos (fs : FS) (directory input_format : String) :
    1 ≤ convRecordCount fs directory input_format := by
  unfold convRecordCount
  rcases hdir : getVal directory fs with _ | files
  · simp [hdir]
  · simp only [hdir]
    by_cases h : files.countP (fun f => endswith f ("." ++ input_format)) = 0
    · simp [h]
    · rw [if_neg h]
      exact Nat.pos_of_ne_zero h

/-- C2 (counterexample): one invocation of the conversion handler on a
directory holding two matching `.txt` files appends two Execution Records
(one per converted file), not exactly one. -/
theorem C2_counterexample :
    (file_conversion_task twoTxtFs [] "t" "d" "txt" "csv").2.length = 2 ∧
    (file_conversion_task twoTxtFs [] "t" "d" "txt" "csv").2.length ≠ 1 := by
  constructor
  · rfl
  · decide

/-- C2 (amended): every compression-handler invocation (either variant)
appends exactly one Execution Record, success or failure; a
conversion-handler invocation appends one record per matching file — exactly
one when the directory is missing or no file matches — so always at least
one record, but more than one when several files match. -/
theorem C2_record_counts (ioFault : Option String) (t : Nat) (fs : FS)
    (logs : List LogEntry)
    (task_name directory input_format output_format compression_format :
      String) (cfOpt : Option String) :
    (file_compression_task ioFault t fs logs task_name directory
      compression_format).2.length = logs.length + 1 ∧
    (file_task ioFault t fs logs task_name directory cfOpt).2.length =
      logs.length + 1 ∧
    (file_conversion_task fs logs task_name directory input_format
      output_format).2.length =
      logs.length + convRecordCount fs directory input_format ∧
    1 ≤ convRecordCount fs directory input_format := by
  refine ⟨?_, ?_, ?_, convRecordCount_pos fs directory input_format⟩
  · rcases hdir : getVal directory fs with _ | files
    · simp [file_compression_task, hdir]
    · simp only [file_compression_task, hdir]
      unfold compress_files
      rcases hb : compressBody ioFault fs directory
          (joinPath directory (archiveName directory t compression_format))
          compression_format with e | fs2 <;> simp
  · rcases hdir : getVal directory fs with _ | files
    · simp [file_task, hdir]
    · simp only [file_task, hdir]
      by_cases hcf : isTruthy cfOpt = true
      · simp only [hcf, if_true]
        rcases hb : compressBody ioFault fs directory
            (joinPath directory (archiveName directory t (cfOpt.getD "")))
            (cfOpt.getD "") with e | fs2 <;> simp
      · simp only [Bool.not_eq_true] at hcf
        simp [hcf]
  · rcases hdir : getVal directory fs with _ | files
    · simp [file_conversion_task, convRecordCount, hdir]
    · have hc := convLoop_count task_name directory input_format
        output_format files fs logs
      have hl := convLoop_logs task_name directory input_format
        output_format files fs logs
      simp only [file_conversion_task, hdir]
      by_cases hz : (convLoop fs logs task_name directory input_format
          output_format files).2.2 = 0
      · have hcount0 : files.countP
            (fun f => endswith f ("." ++ input_format)) = 0 := by
          rw [← hc]; exact hz
        simp only [hz, if_true, List.length_append, hl, hcount0]
        simp [convRecordCount, hdir, hcount0]
      · have hcount : files.countP
            (fun f => endswith f ("." ++ input_format)) ≠ 0 := by
          rw [← hc]; exact hz
        simp only [hz, if_false, hl]
        simp [convRecordCount, hdir, hcount]

theorem convLoop_unsupported (task_name d input_format output_format : String)
    (hns : (input_format, output_format) ∉ convFormats) :
    ∀ (files : List String) (fs : FS) (logs : List LogEntry),
      convLoop fs logs task_name d input_format output_format files =
        (fs,
         logs ++
           (files.filter (fun f => endswith f ("." ++ input_format))).map
             (fun f => ⟨task_name, some (joinPath d f),
               some (joinPath d (splitextStem f ++ "." ++ output_format)),
               "Error: Unsupported conversion format", "ERROR"⟩),
         files.countP (fun f => endswith f ("." ++ input_format))) := by
  intro files
  induction files with
  | nil => intro fs logs; simp [convLoop]
  | cons fname rest ih =>
    intro fs logs
    by_cases hm : endswith fname ("." ++ input_format)
    · have hcf : convert_file fs logs task_name d fname
          (splitextStem fname ++ "." ++ output_format) input_format
          output_format =
          (fs, logs ++ [⟨task_name, some (joinPath d fname),
            some (joinPath d (splitextStem fname ++ "." ++ output_format)),
            "Error: Unsupported conversion format", "ERROR"⟩]) := by
        simp [convert_file, hns]
      simp only [convLoop, hm, if_true, hcf, ih]
      simp [List.filter_cons, List.countP_cons, hm]
    · simp only [Bool.not_eq_true] at hm
      simp [convLoop, hm, ih, List.filter_cons, List.countP_cons]

/-- C4: any exception inside a handler body is caught at the handler
boundary: the handler returns normally, keeps the filesystem it had, and
appends an ERROR-level Execution Record — nothing escapes to the dispatcher.
Covered exceptions: for the compression paths (`compress_files` and the
compression branch of the backend `file_task`), any fault of the archive
body, including the unsupported-format `ValueError`; for the conversion
paths, the unsupported-conversion-format `ValueError` raised inside
`convert_file` (one ERROR record per affected file, and the conversion
handler invocation still returns normally). -/
theorem C4_handler_catches (ioFault : Option String) (t : Nat) (fs : FS)
    (logs : List LogEntry) (task_name d out : String) (fmt : String)
    (cf : Option String) :
    (∀ e, compressBody ioFault fs d out fmt = .error e →
      compress_files ioFault fs logs task_name d out fmt =
        (fs, logs ++ [⟨task_name, some d, some out, "Error: " ++ e,
                       "ERROR"⟩])) ∧
    (∀ e files, getVal d fs = some files → isTruthy cf = true →
      compressBody ioFault fs d (joinPath d (archiveName d t (cf.getD "")))
        (cf.getD "") = .error e →
      file_task ioFault t fs logs task_name d cf =
        (fs, logs ++ [⟨task_name, some d,
          some (joinPath d (archiveName d t (cf.getD ""))),
          "Error: " ++ e, "ERROR"⟩])) ∧
    (∀ in_name out_name input_format output_format,
      (input_format, output_format) ∉ convFormats →
      convert_file fs logs task_name d in_name out_name input_format
          output_format =
        (fs, logs ++ [⟨task_name, some (joinPath d in_name),
          some (joinPath d out_name),
          "Error: Unsupported conversion format", "ERROR"⟩])) ∧
    (∀ files input_format output_format,
      getVal d fs = some files →
      (input_format, output_format) ∉ convFormats →
      files.countP (fun f => endswith f ("." ++ input_format)) ≠ 0 →
      file_conversion_task fs logs task_name d input_format output_format =
        (fs, logs ++
          (files.filter (fun f => endswith f ("." ++ input_format))).map
            (fun f => ⟨task_name, some (joinPath d f),
              some (joinPath d (splitextStem f ++ "." ++ output_format)),
              "Error: Unsupported conversion format", "ERROR"⟩))) := by
  refine ⟨?_, ?_, ?_, ?_⟩
  · intro e he
    simp [compress_files, he]
  · intro e files hdir hcf he
    simp [file_task, hdir, hcf, he]
  · intro in_name out_name input_format output_format hns
    simp [convert_file, hns]
  · intro files input_format output_format hdir hns hcnt
    have hloop := convLoop_unsupported task_name d input_format
      output_format hns files fs logs
    simp only [file_conversion_task, hdir, hloop]
    simp [hcnt]

theorem C4_witness :
    compress_files none [] [] "t" "d" "out" "rar" =
      ([], [⟨"t", some "d", some "out",
            "Error: Unsupported compression format", "ERROR"⟩]) ∧
    convert_file twoTxtFs [] "t" "d" "a.txt" "a.bmp" "txt" "bmp" =
      (twoTxtFs, [⟨"t", some (joinPath "d" "a.txt"),
        some (joinPath "d" "a.bmp"),
        "Error: Unsupported conversion format", "ERROR"⟩]) ∧
    file_conversion_task twoTxtFs [] "t" "d" "txt" "bmp" =
      (twoTxtFs,
       [⟨"t", some (joinPath "d" "a.txt"),
         some (joinPath "d" (splitextStem "a.txt" ++ "." ++ "bmp")),
         "Error: Unsupported conversion format", "ERROR"⟩,
        ⟨"t", some (joinPath "d" "b.txt"),
         some (joinPath "d" (splitextStem "b.txt" ++ "." ++ "bmp")),
         "Error: Unsupported conversion format", "ERROR"⟩]) := by
  refine ⟨(C4_handler_catches none 0 [] [] "t" "d" "out" "rar" none).1
      "Unsupported compression format" rfl,
    (C4_handler_catches none 0 twoTxtFs [] "t" "d" "out" "rar" none).2.2.1
      "a.txt" "a.bmp" "txt" "bmp" (by decide), ?_⟩
  have h := (C4_handler_catches none 0 twoTxtFs [] "t" "d" "out" "rar"
      none).2.2.2 ["a.txt", "b.txt"] "txt" "bmp" rfl (by decide) (by decide)
  rw [h]
  rfl

theorem mem_eq_of_nodup_keys {α : Type} (l : List (String × α))
    (hnd : (l.map Prod.fst).Nodup) (a b : String × α)
    (ha : a ∈ l) (hb : b ∈ l) (hk : a.1 = b.1) : a = b := by
  induction l with
  | nil => simp at ha
  | cons p rest ih =>
    simp only [List.map_cons, List.nodup_cons] at hnd
    rcases List.mem_cons.mp ha with ha1 | ha2 <;>
      rcases List.mem_cons.mp hb with hb1 | hb2
    · rw [ha1, hb1]
    · exfalso
      apply hnd.1
      rw [ha1] at hk
      rw [hk]
      exact List.mem_map_of_mem Prod.fst hb2
    · exfalso
      apply hnd.1
      rw [hb1] at hk
      rw [← hk]
      exact List.mem_map_of_mem Prod.fst ha2
    · exact ih hnd.2 ha2 hb2

/-- C5 (counterexample): a persisted entry with every required field, a
supported unit and an integer interval, but an unrecognised `task_type`, is
skipped by reconcile — no trigger is registered and the store is untouched —
yet no warning is emitted (the `task_type` dispatch has no `else` branch),
contradicting the claim that every malformed entry is skipped with a
warning. -/
theorem C5_counterexample :
    load_and_schedule_tasks weirdSt = .ok (weirdSt, []) ∧
    requiredKeys weirdRec = true ∧
    unitOf (weirdRec.unit.getD .pnone) = some .seconds ∧
    reconcileJob "x" weirdRec ⟨.seconds, 1⟩ = none := by
  exact ⟨rfl, rfl, rfl, rfl⟩

/-- C5 (amended): reconcile leaves the persisted task table and the history
sink unchanged; every well-formed entry is (re)registered as a live trigger
— exactly one per name — while every malformed entry is skipped and kept in
the store (missing required fields and unsupported units are skipped with a
warning, an unrecognised task type silently); and re-running reconcile
replaces rather than duplicates, leaving every registry binding unchanged. -/
theorem load_and_schedule_ok (st : SchedState)
    (hwt : ∀ e ∈ st.store, wellTypedEntry e) :
    load_and_schedule_tasks st =
      .ok (withRegistry st (applyValid st.store st.registry),
           st.store.filterMap entryWarn) := by
  unfold load_and_schedule_tasks withRegistry
  rw [reconcileLoop_eq st.store st.registry [] hwt]
  simp

theorem C5_reconcile_frame (st : SchedState)
    (hstore : (st.store.map Prod.fst).Nodup)
    (hreg : (st.registry.map Prod.fst).Nodup)
    (hwt : ∀ e ∈ st.store, wellTypedEntry e) :
    load_and_schedule_tasks st =
      .ok (withRegistry st (applyValid st.store st.registry),
           st.store.filterMap entryWarn) ∧
    (∀ n d j, (n, d) ∈ st.store → entryJob (n, d) = some (n, j) →
      getVal n (applyValid st.store st.registry) = some j ∧
      (applyValid st.store st.registry).countP (fun p => p.1 = n) = 1) ∧
    (∀ n d, (n, d) ∈ st.store → entryJob (n, d) = none →
      getVal n (applyValid st.store st.registry) = getVal n st.registry) ∧
    load_and_schedule_tasks
        (withRegistry st (applyValid st.store st.registry)) =
      .ok (withRegistry st
             (applyValid st.store (applyValid st.store st.registry)),
           st.store.filterMap entryWarn) ∧
    (∀ m, getVal m (applyValid st.store (applyValid st.store st.registry)) =
      getVal m (applyValid st.store st.registry)) := by
  refine ⟨load_and_schedule_ok st hwt, ?_, ?_, ?_, ?_⟩
  · intro n d j hmem hj
    constructor
    · exact getVal_applyValid_mem st.store st.registry n d j hstore hmem hj
    · exact countP_keys_eq_one _ n j
        (nodupKeys_applyValid st.store st.registry hreg)
        (getVal_applyValid_mem st.store st.registry n d j hstore hmem hj)
  · intro n d hmem hnone
    apply getVal_applyValid_untouched
    intro e he j hj
    have hkey := entryJob_key e n j hj
    have heq : e = (n, d) :=
      mem_eq_of_nodup_keys st.store hstore e (n, d) he hmem (by rw [← hkey])
    rw [heq] at hj
    rw [hj] at hnone
    exact Option.noConfusion hnone
  · exact load_and_schedule_ok
      (withRegistry st (applyValid st.store st.registry))
      (fun e he => hwt e he)
  · intro m
    exact getVal_applyValid_idem st.store st.registry m hstore

theorem C5_reconcile_witness :
    load_and_schedule_tasks exStALone =
      .ok (withRegistry exStALone
             (applyValid exStALone.store exStALone.registry),
           exStALone.store.filterMap entryWarn) :=
  (C5_reconcile_frame exStALone (by decide) (by decide)
    (fun e he => by
      intro hr hu
      refine ⟨1, ?_⟩
      have heq : e = ("t", exRec) := by simpa [exStALone] using he
      rw [heq]
      rfl)).1

/-- C8: a successful compression invocation at time `t` creates exactly one
archive, named `{basename(directory)}_{t}.{format}`, inside the source
directory itself (no other directory changes); invoking the handler again at
a different second produces a second, distinctly named archive alongside the
first rather than overwriting it. -/
theorem C8_archive_per_invocation (fs : FS) (logs : List LogEntry)
    (task_name d fmt : String) (t1 t2 : Nat) (files : List String)
    (hdir : getVal d fs = some files)
    (hfmt : fmt = "zip" ∨ fmt = "tar")
    (hne : t1 ≠ t2)
    (hf1 : joinPath d (archiveName d t1 fmt) ∉ files)
    (hf2 : joinPath d (archiveName d t2 fmt) ∉ files) :
    archiveName d t1 fmt ≠ archiveName d t2 fmt ∧
    getVal d (file_compression_task none t1 fs logs task_name d fmt).1 =
      some (files ++ [joinPath d (archiveName d t1 fmt)]) ∧
    (∀ d2, d2 ≠ d →
      getVal d2 (file_compression_task none t1 fs logs task_name d fmt).1 =
        getVal d2 fs) ∧
    getVal d (file_compression_task none t2
        (file_compression_task none t1 fs logs task_name d fmt).1
        (file_compression_task none t1 fs logs task_name d fmt).2
        task_name d fmt).1 =
      some (files ++ [joinPath d (archiveName d t1 fmt),
                      joinPath d (archiveName d t2 fmt)]) := by
  have hname_ne : archiveName d t1 fmt ≠ archiveName d t2 fmt :=
    fun h => hne (archiveName_injective d fmt h)
  have hpath_ne : joinPath d (archiveName d t1 fmt) ≠
      joinPath d (archiveName d t2 fmt) :=
    fun h => hname_ne (joinPath_injective_right d h)
  have hbody : ∀ (fs2 : FS) (out : String),
      compressBody none fs2 d out fmt = .ok (addFileAt fs2 d out) := by
    intro fs2 out
    unfold compressBody
    rw [if_pos hfmt]
  have h1 : file_compression_task none t1 fs logs task_name d fmt =
      (addFileAt fs d (joinPath d (archiveName d t1 fmt)),
       logs ++ [⟨task_name, some d,
                 some (joinPath d (archiveName d t1 fmt)), "Compressed",
                 "INFO"⟩]) := by
    simp only [file_compression_task, hdir, compress_files, hbody]
  have hgv1 : getVal d (addFileAt fs d (joinPath d (archiveName d t1 fmt))) =
      some (files ++ [joinPath d (archiveName d t1 fmt)]) := by
    rw [getVal_addFileAt_self, hdir]
    simp [hf1]
  have h2 : ∀ logs2 : List LogEntry,
      file_compression_task none t2
          (addFileAt fs d (joinPath d (archiveName d t1 fmt))) logs2
          task_name d fmt =
        (addFileAt (addFileAt fs d (joinPath d (archiveName d t1 fmt))) d
           (joinPath d (archiveName d t2 fmt)),
         logs2 ++ [⟨task_name, some d,
                    some (joinPath d (archiveName d t2 fmt)), "Compressed",
                    "INFO"⟩]) := by
    intro logs2
    simp only [file_compression_task, hgv1, compress_files, hbody]
  refine ⟨hname_ne, ?_, ?_, ?_⟩
  · rw [h1]
    exact hgv1
  · intro d2 hd2
    rw [h1]
    exact getVal_addFileAt_other fs d d2 _ hd2
  · rw [h1, h2]
    rw [getVal_addFileAt_self, hgv1]
    have hnotmem : joinPath d (archiveName d t2 fmt) ∉
        files ++ [joinPath d (archiveName d t1 fmt)] := by
      simp only [List.mem_append, List.mem_singleton]
      rintro (hc | hc)
      · exact hf2 hc
      · exact hpath_ne hc.symm
    simp [hnotmem]

theorem C8_witness :
    archiveName "d" 1 "zip" ≠ archiveName "d" 2 "zip" ∧
    getVal "d" (file_compression_task none 1 [("d", [])] [] "t" "d" "zip").1 =
      some ([] ++ [joinPath "d" (archiveName "d" 1 "zip")]) := by
  have h := C8_archive_per_invocation [("d", [])] [] "t" "d" "zip" 1 2 []
    rfl (Or.inl rfl) (by decide) (by simp) (by simp)
  exact ⟨h.1, h.2.1⟩
